import Mathlib

/-!
# A verification development for the mylis Scheme evaluator

This file gives a shallow embedding, in Lean 4, of the evaluator of the
`mylis` interpreter (`evaluator.py`, with types from `mytypes.py` and the
printer from `parser.py`), and proves properties of that embedding.

Modelling decisions, all driven by the Python source:

* Python's single runtime universe of values (numbers, booleans, strings
  used as symbols, lists, `None`, `Procedure` objects, built-in callables)
  is one inductive type `Exp`.  Python floats are modelled as rationals:
  only comparison with zero and kind-preservation matter here, never
  rounding or NaN.  Python `bool` is a subclass of `int`, so the
  evaluator's `case int(x) | float(x)` pattern also matches booleans; the
  embedding keeps that behaviour explicit.
* `Environment` is a `ChainMap` subclass.  A `ChainMap` holds a list
  `maps` whose elements are plain `dict`s *or other `ChainMap`s* (the code
  builds `Environment(local_env, self.definition_env)`, nesting whole
  environments as single elements of `maps`).  Environments are mutable
  heap objects aliased by closures, so the embedding uses an explicit
  store: `Store` is a list of environment objects indexed by allocation
  order, and an environment object is a list of `MapEnt`, each entry a
  plain frame or a reference to another (always earlier-allocated)
  environment.  Chain-walking recursions carry a fuel argument; call
  sites pass a bound derived from the store that suffices for every store
  whose references point to earlier objects (which all reachable stores
  do; on a cyclic store Python's recursion would not terminate either).
* Exceptions are a single error type `Err` covering both the interpreter's
  own taxonomy (`UndefinedSymbol`, `InvalidSyntax`, `EvaluatorException`)
  and the host (Python) exceptions the code can leak (`KeyError`,
  `IndexError`, `NameError`, `TypeError`, `ZeroDivisionError`).  The
  `EvaluatorException` message built at `evaluator.py:229-231`
  interpolates Python `repr`s of host objects; the embedding keeps its two
  meaningful payloads, the printed source form and the offending
  expression tree.
* `evaluate`'s trampoline (`while True`, `evaluator.py:181`) is modelled
  with step fuel: result `none` means the fuel ran out (the Python
  process would still be running).  Every recursive edge decreases the
  fuel by one; `evaluate_mono` below shows results are stable under extra
  fuel, so `∃ fuel, ... = some r` expresses "the Python evaluation
  terminates with result r".
* The module-level constant `TCO_ENABLED` (`evaluator.py:24`) becomes a
  boolean parameter `tco` threaded through the evaluator.
-/

/-- Built-in procedures from `standard_env` (`evaluator.py:89-130`) that the
theorems exercise.  The table itself is an external collaborator (spec §6);
only a callable that accepts any argument count (`+`) and one that rejects
a wrong argument count (`quotient`, i.e. `operator.floordiv`) are needed
here. -/
inductive Prim where
  | add
  | quotient
deriving DecidableEq

/-- The single universe of Python values handled by `evaluate`
(`mytypes.py:3-6` plus the runtime-only values: booleans, `None`,
`Procedure` objects from `evaluator.py:39-57`, and built-in callables).
A `Procedure` holds its parameter list and body as raw expressions and its
defining environment as a store index (`evaluator.py:42-47`). -/
inductive Exp where
  | int (n : Int)
  | float (q : Rat)
  | sym (s : String)
  | bool (b : Bool)
  | list (xs : List Exp)
  | none
  | proc (parms : List Exp) (body : List Exp) (envId : Nat)
  | prim (p : Prim)

mutual

/-- Structural decidable equality for `Exp` (the nested `List Exp` fields
rule out `deriving`). -/
def expDecEq : (a b : Exp) → Decidable (a = b)
  | .int a, .int b =>
      match decEq a b with
      | isTrue h => isTrue (by rw [h])
      | isFalse h => isFalse (by intro hc; injection hc; contradiction)
  | .float a, .float b =>
      match decEq a b with
      | isTrue h => isTrue (by rw [h])
      | isFalse h => isFalse (by intro hc; injection hc; contradiction)
  | .sym a, .sym b =>
      match decEq a b with
      | isTrue h => isTrue (by rw [h])
      | isFalse h => isFalse (by intro hc; injection hc; contradiction)
  | .bool a, .bool b =>
      match decEq a b with
      | isTrue h => isTrue (by rw [h])
      | isFalse h => isFalse (by intro hc; injection hc; contradiction)
  | .list a, .list b =>
      match expDecEqList a b with
      | isTrue h => isTrue (by rw [h])
      | isFalse h => isFalse (by intro hc; injection hc; contradiction)
  | .none, .none => isTrue rfl
  | .proc p₁ b₁ e₁, .proc p₂ b₂ e₂ =>
      match expDecEqList p₁ p₂, expDecEqList b₁ b₂, decEq e₁ e₂ with
      | isTrue h₁, isTrue h₂, isTrue h₃ => isTrue (by rw [h₁, h₂, h₃])
      | isFalse h₁, _, _ => isFalse (by intro hc; injection hc; contradiction)
      | _, isFalse h₂, _ => isFalse (by intro hc; injection hc; contradiction)
      | _, _, isFalse h₃ => isFalse (by intro hc; injection hc; contradiction)
  | .prim a, .prim b =>
      match decEq a b with
      | isTrue h => isTrue (by rw [h])
      | isFalse h => isFalse (by intro hc; injection hc; contradiction)
  | .int _, .float _ | .int _, .sym _ | .int _, .bool _ | .int _, .list _
  | .int _, .none | .int _, .proc _ _ _ | .int _, .prim _
  | .float _, .int _ | .float _, .sym _ | .float _, .bool _ | .float _, .list _
  | .float _, .none | .float _, .proc _ _ _ | .float _, .prim _
  | .sym _, .int _ | .sym _, .float _ | .sym _, .bool _ | .sym _, .list _
  | .sym _, .none | .sym _, .proc _ _ _ | .sym _, .prim _
  | .bool _, .int _ | .bool _, .float _ | .bool _, .sym _ | .bool _, .list _
  | .bool _, .none | .bool _, .proc _ _ _ | .bool _, .prim _
  | .list _, .int _ | .list _, .float _ | .list _, .sym _ | .list _, .bool _
  | .list _, .none | .list _, .proc _ _ _ | .list _, .prim _
  | .none, .int _ | .none, .float _ | .none, .sym _ | .none, .bool _
  | .none, .list _ | .none, .proc _ _ _ | .none, .prim _
  | .proc _ _ _, .int _ | .proc _ _ _, .float _ | .proc _ _ _, .sym _
  | .proc _ _ _, .bool _ | .proc _ _ _, .list _ | .proc _ _ _, .none
  | .proc _ _ _, .prim _
  | .prim _, .int _ | .prim _, .float _ | .prim _, .sym _ | .prim _, .bool _
  | .prim _, .list _ | .prim _, .none | .prim _, .proc _ _ _ =>
      isFalse (by intro hc; exact Exp.noConfusion hc)

/-- Decidable equality for lists of expressions. -/
def expDecEqList : (a b : List Exp) → Decidable (a = b)
  | [], [] => isTrue rfl
  | [], _ :: _ => isFalse (by intro hc; exact List.noConfusion hc)
  | _ :: _, [] => isFalse (by intro hc; exact List.noConfusion hc)
  | a :: as₀, b :: bs₀ =>
      match expDecEq a b, expDecEqList as₀ bs₀ with
      | isTrue h₁, isTrue h₂ => isTrue (by rw [h₁, h₂])
      | isFalse h₁, _ => isFalse (by intro hc; injection hc; contradiction)
      | _, isFalse h₂ => isFalse (by intro hc; injection hc; contradiction)

end

instance : DecidableEq Exp := expDecEq

/-- Exceptions (`mytypes.py:39-46` plus the host exceptions the evaluator
can raise): `undefinedSymbol` is `UndefinedSymbol`, `invalidSyntax` is
`InvalidSyntax`, `evaluatorException` is the `EvaluatorException` built at
`evaluator.py:228-232` (payloads: the printed source form and the raw
expression tree), and `keyError`, `indexError`, `nameError`, `typeError`,
`zeroDivisionError` are the corresponding Python built-in exceptions
(`KeyError` carries the offending key object). -/
inductive Err where
  | undefinedSymbol (s : String)
  | invalidSyntax (src : String)
  | evaluatorException (src : String) (ast : Exp)
  | keyError (k : Exp)
  | indexError
  | nameError
  | typeError (msg : String)
  | zeroDivisionError
deriving DecidableEq

/-- A frame: one Python `dict` used as a mapping level.  Insertion order is
kept (new keys append, updates stay in place), matching `dict`.  Keys are
compared structurally; this matches Python `==` for the keys that can
reach a frame (symbols always; ints/floats from degenerate parameter
lists).  Python's cross-kind numeric key equality (`1 == 1.0 == True`) is
not modelled: no reachable evaluation both stores and looks up such keys
(variable lookup keys are always symbols, and the reader produces no
booleans). -/
abbrev Frame := List (Exp × Exp)

/-- One element of a `ChainMap`'s `maps` list: a plain `dict` frame, or a
nested `Environment` given by its store index. -/
inductive MapEnt where
  | frame (f : Frame)
  | ref (i : Nat)
deriving DecidableEq

/-- An `Environment` object: its `maps` list (`ChainMap.maps`). -/
abbrev EnvObj := List MapEnt

/-- The heap of environment objects, indexed by allocation order. -/
abbrev Store := List EnvObj

/-- Python `dict` lookup: the value stored for `k`, if any. -/
def frameGet (f : Frame) (k : Exp) : Option Exp :=
  (f.find? (fun e => e.1 == k)).map (·.2)

/-- Python `key in dict`. -/
def frameHas (f : Frame) (k : Exp) : Bool :=
  f.any (fun e => e.1 == k)

/-- Python `dict[key] = value`: overwrite in place if present, else append. -/
def frameSet (f : Frame) (k v : Exp) : Frame :=
  match f with
  | [] => [(k, v)]
  | (k', v') :: rest =>
      if k' == k then (k', v) :: rest else (k', v') :: frameSet rest k v

/-- Python truthiness, `bool(x)`, as used by `if evaluate(test, env)`
(`evaluator.py:193`), the `cond` clause guard (`evaluator.py:143`), and the
`or`/`and` loops (`evaluator.py:154`, `164`).  Falsy values: `False`, zero
of either numeric kind, empty containers (the empty list and the empty
string), and `None`; every object without a length or truth protocol
(`Procedure`s, built-ins) is truthy. -/
def truthy : Exp → Bool
  | .bool b => b
  | .int n => decide (n ≠ 0)
  | .float q => decide (q ≠ 0)
  | .sym st => decide (st ≠ "")
  | .list xs => !xs.isEmpty
  | .none => false
  | .proc _ _ _ => true
  | .prim _ => true

/-- KEYWORDS_1 (`evaluator.py:170`). -/
def KEYWORDS_1 : List String := ["quote", "if", "define", "lambda"]

/-- KEYWORDS_2 (`evaluator.py:171`). -/
def KEYWORDS_2 : List String := ["set!", "cond", "or", "and", "begin"]

/-- KEYWORDS (`evaluator.py:172`). -/
def KEYWORDS : List String := KEYWORDS_1 ++ KEYWORDS_2

/-- The guard `op not in KEYWORDS` of the application case
(`evaluator.py:219`), negated.  Python list membership compares with `==`;
only a string can equal a string, so only symbols can be keywords. -/
def isKeywordExp : Exp → Bool
  | .sym st => KEYWORDS.contains st
  | _ => false

/-- Stand-in for Python's `repr` of a float.  The embedding models floats
as rationals, so the exact digit string of `repr` is not reproduced; no
theorem below depends on the printed form of a float. -/
def floatRepr (q : Rat) : String := toString q

mutual

/-- s_expr (`parser.py:57-72`): convert a value to its printed s-expression
form.  The match order follows the source: `True`/`False` print as `#t`/`#f`
before the list and symbol cases; everything else falls back to `repr`
(for `None` that is the string `None`; for `Procedure` objects and
built-ins Python's default `repr` contains a memory address, abstracted
here as a fixed token — no theorem depends on those two cases). -/
def s_expr : Exp → String
  | .bool true => "#t"
  | .bool false => "#f"
  | .list xs => "(" ++ String.intercalate " " (s_exprList xs) ++ ")"
  | .sym x => x
  | .int n => toString n
  | .float q => floatRepr q
  | .none => "None"
  | .proc _ _ _ => "<Procedure>"
  | .prim _ => "<built-in>"

/-- Printed forms of the items of a list, for `s_expr`'s `' '.join`. -/
def s_exprList : List Exp → List String
  | [] => []
  | x :: xs => s_expr x :: s_exprList xs

end

/-- Worst-case depth of the chain-walking recursions below: one unit per
map entry plus one per environment object, plus one.  When every `ref`
points to a strictly earlier store index — true of every store the
evaluator builds — a walk starting anywhere needs at most this much fuel,
because the depth `d i` of object `i` satisfies
`d i ≤ |maps of i| + max over referenced j < i of d j`. -/
def envFuel (s : Store) : Nat := s.length + (s.map List.length).sum + 1

/-- ChainMap lookup walk (`ChainMap.__getitem__`, used at
`evaluator.py:187`, and `ChainMap.__contains__`): consult the elements of
`maps` in order; a plain frame answers directly; a nested environment is
searched recursively, and its internal `KeyError` is caught so the walk
continues with the next element.  The fuel only runs out on stores with
non-decreasing references, where CPython's recursion would not terminate
either; a dangling reference likewise never occurs in a reachable store. -/
def envLookupGo : Nat → Store → List MapEnt → Exp → Option Exp
  | 0, _, _, _ => Option.none
  | _ + 1, _, [], _ => Option.none
  | fuel + 1, s, .frame f :: rest, k =>
      match frameGet f k with
      | some v => some v
      | Option.none => envLookupGo fuel s rest k
  | fuel + 1, s, .ref j :: rest, k =>
      match (match s.get? j with
             | some obj => envLookupGo fuel s obj k
             | Option.none => Option.none) with
      | some v => some v
      | Option.none => envLookupGo fuel s rest k

/-- Lookup of `k` in the environment object at store index `i`. -/
def envLookup (s : Store) (i : Nat) (k : Exp) : Option Exp :=
  match s.get? i with
  | some obj => envLookupGo (envFuel s) s obj k
  | Option.none => Option.none

/-- Python `key in environment` (`ChainMap.__contains__`): succeeds exactly
when the chain lookup finds the key (frames are `dict`s, where membership
and lookup agree). -/
def envContains (s : Store) (j : Nat) (k : Exp) : Bool :=
  (envLookup s j k).isSome

/-- ChainMap assignment (`ChainMap.__setitem__`): write into `maps[0]` of
the object at index `i`.  When `maps[0]` is itself a nested environment,
the write recurses into *its* `maps[0]` (never reached by this program:
every environment it builds has a plain frame first; the empty-`maps` and
dangling cases, which Python would fault on, leave the store unchanged). -/
def envSetGo : Nat → Store → Nat → Exp → Exp → Store
  | 0, s, _, _, _ => s
  | fuel + 1, s, i, k, v =>
      match s.get? i with
      | Option.none => s
      | some [] => s
      | some (.frame f :: rest) => s.set i (.frame (frameSet f k v) :: rest)
      | some (.ref j :: _) => envSetGo fuel s j k v

/-- Python `env[name] = value` on the environment object at index `i`
(used by `define`, `evaluator.py:198` and `205`). -/
def envSetItem (s : Store) (i : Nat) (k v : Exp) : Store :=
  envSetGo (s.length + 1) s i k v

/-- The loop body of `Environment.change` (`evaluator.py:32-36`): scan the
elements of `maps` for the first one containing `key` and assign into it.
For a plain frame the assignment lands in that frame; for a nested
environment element, `map[key] = value` is `ChainMap.__setitem__`, which
writes into that environment's *first* map — not necessarily the frame the
chain search found the key in.  `pre` collects the elements already
scanned, so the store update can rebuild the whole `maps` list. -/
def envChangeMaps (s : Store) (i : Nat) (pre : List MapEnt) :
    List MapEnt → Exp → Exp → Except Err Store
  | [], k, _ => .error (.keyError k)
  | .frame f :: rest, k, v =>
      if frameHas f k then
        .ok (s.set i (pre ++ MapEnt.frame (frameSet f k v) :: rest))
      else envChangeMaps s i (pre ++ [MapEnt.frame f]) rest k v
  | .ref j :: rest, k, v =>
      if envContains s j k then .ok (envSetGo (s.length + 1) s j k v)
      else envChangeMaps s i (pre ++ [MapEnt.ref j]) rest k v

/-- Environment.change (`evaluator.py:30-36`): `raise KeyError(key)` when
no element of `maps` contains the key. -/
def envChange (s : Store) (i : Nat) (k v : Exp) : Except Err Store :=
  match s.get? i with
  | some obj => envChangeMaps s i [] obj k v
  | Option.none => .error (.keyError k)

/-- Insertion loop of `dict(zip(parms, args))` (`evaluator.py:50`): `zip`
truncates to the shorter sequence; inserting an unhashable key (a Python
`list`) raises `TypeError`; a repeated key keeps its first position with
the last value, as in `dict`. -/
def dictZipPairs : List (Exp × Exp) → Frame → Except Err Frame
  | [], f => .ok f
  | (k, v) :: rest, f =>
      match k with
      | .list _ => .error (.typeError "unhashable type: list")
      | _ => dictZipPairs rest (frameSet f k v)

/-- Python `dict(zip(parms, args))`. -/
def dictZip (parms args : List Exp) : Except Err Frame :=
  dictZipPairs (parms.zip args) []

/-- Procedure.application_env (`evaluator.py:49-51`): allocate
`Environment(local_env, self.definition_env)` — a fresh environment object
whose `maps` are the new local frame followed by the (shared, aliased)
defining environment — and return the new store with the fresh index. -/
def application_env (s : Store) (parms args : List Exp) (defEnv : Nat) :
    Except Err (Store × Nat) :=
  (dictZip parms args).map fun localFrame =>
    (s ++ [[MapEnt.frame localFrame, MapEnt.ref defEnv]], s.length)

/-- Python numeric addition for `sum`: ints add to ints, a float operand
makes the result a float, and booleans act as the ints 0 and 1 (`bool`
subclasses `int`); anything else has no sum with a number.  Integer
arithmetic is exact; float arithmetic is modelled on rationals. -/
def pyAdd : Exp → Exp → Option Exp
  | .int a, .int b => some (.int (a + b))
  | .int a, .float b => some (.float (a + b))
  | .int a, .bool b => some (.int (a + if b then 1 else 0))
  | .float a, .int b => some (.float (a + b))
  | .float a, .float b => some (.float (a + b))
  | .float a, .bool b => some (.float (a + if b then 1 else 0))
  | .bool a, .int b => some (.int ((if a then 1 else 0) + b))
  | .bool a, .float b => some (.float ((if a then 1 else 0) + b))
  | .bool a, .bool b => some (.int ((if a then 1 else 0) + (if b then 1 else 0)))
  | _, _ => Option.none

/-- Python `sum(args)` starting from the int 0 (`evaluator.py:96`): a
non-number raises `TypeError`. -/
def sumPy : List Exp → Exp → Except Err Exp
  | [], acc => .ok acc
  | x :: rest, acc =>
      match pyAdd acc x with
      | some v => sumPy rest v
      | Option.none => .error (.typeError "unsupported operand type for +")

/-- Python `operator.floordiv` on two numbers: floor division, float iff
either operand is a float, `ZeroDivisionError` on a zero divisor,
`TypeError` on a non-number; booleans act as the ints 0 and 1. -/
def pyFloordiv (a b : Exp) : Except Err Exp :=
  let norm : Exp → Exp := fun x =>
    match x with
    | .bool f => .int (if f then 1 else 0)
    | other => other
  match norm a, norm b with
  | .int x, .int y =>
      if y = 0 then .error .zeroDivisionError else .ok (.int (Int.fdiv x y))
  | .int x, .float y =>
      if y = 0 then .error .zeroDivisionError
      else .ok (.float (((x : Rat) / y).floor : Int))
  | .float x, .int y =>
      if y = 0 then .error .zeroDivisionError
      else .ok (.float ((x / (y : Rat)).floor : Int))
  | .float x, .float y =>
      if y = 0 then .error .zeroDivisionError
      else .ok (.float ((x / y).floor : Int))
  | _, _ => .error (.typeError "unsupported operand type for floordiv")

/-- Application of a modelled built-in: `+` is `lambda *args: sum(args)`
(any arity, `evaluator.py:96`); `quotient` is `operator.floordiv`
(`evaluator.py:100`), which raises `TypeError` unless called with exactly
two arguments. -/
def applyPrim : Prim → List Exp → Except Err Exp
  | .add, args => sumPy args (.int 0)
  | .quotient, [a, b] => pyFloordiv a b
  | .quotient, _ => .error (.typeError "floordiv expected 2 arguments")

/-- Sequencing of evaluation results: fuel exhaustion and raised exceptions
propagate; a value and the updated store feed the continuation. -/
def resBind {α β : Type} (x : Option (Except Err (α × Store)))
    (f : α → Store → Option (Except Err (β × Store))) :
    Option (Except Err (β × Store)) :=
  match x with
  | Option.none => Option.none
  | some (.error e) => some (.error e)
  | some (.ok (a, s)) => f a s

/-- The `try ... except TypeError` around `proc(*values)`
(`evaluator.py:226-232`): a `TypeError` escaping the invocation is
re-raised as an `EvaluatorException` carrying the printed source form and
the raw expression tree of the application; everything else passes
through. -/
def wrapTypeError (ast : Exp) (r : Option (Except Err (Exp × Store))) :
    Option (Except Err (Exp × Store)) :=
  match r with
  | some (.error (.typeError _)) =>
      some (.error (.evaluatorException (s_expr ast) ast))
  | other => other

/-- Shape of the recursive entry point the special-form helpers call:
`evaluate` at the trampoline's current flag and fuel, specialised to an
expression, environment index and store. -/
abbrev EvalFn := Exp → Nat → Store → Option (Except Err (Exp × Store))

/-- The argument comprehension `[evaluate(arg, env) for arg in args]`
(`evaluator.py:221`): left to right, threading the store.  The recursive
calls into the evaluator enter through `ev`. -/
def evalList (ev : EvalFn) : List Exp → Nat → Store → Option (Except Err (List Exp × Store))
  | [], _, s => some (.ok ([], s))
  | e :: rest, env, s =>
      resBind (ev e env s) fun v s₁ =>
        resBind (evalList ev rest env s₁) fun vs s₂ =>
          some (.ok (v :: vs, s₂))

/-- The body loop `for exp in body: result = evaluate(exp, env)` followed
by `return result` (`Procedure.__call__`, `evaluator.py:55-57`, and the
`cond` clause bodies, `evaluator.py:140-142` and `144-146`): evaluate each
expression in order, return the last value.  On an empty body the loop
never assigns `result` and the `return` raises `UnboundLocalError`, a
`NameError` (never reached through `Procedure`s, whose construction
requires a non-empty body, but reachable through degenerate `cond`
clauses). -/
def evalSeq (ev : EvalFn) : List Exp → Nat → Store → Option (Except Err (Exp × Store))
  | [], _, _ => some (.error .nameError)
  | [e], env, s => ev e env s
  | e :: rest, env, s =>
      resBind (ev e env s) fun _ s₁ => evalSeq ev rest env s₁

/-- The three ways `cond_form`'s `match clause` can go
(`evaluator.py:138-146`): an `else`-headed clause, a test clause, or a
clause matching neither pattern (a non-list or the empty list), which the
loop silently skips. -/
inductive CondClause where
  | elseClause (body : List Exp)
  | testClause (test : Exp) (body : List Exp)
  | skipClause

/-- Classification of one `cond` clause, mirroring the `case` patterns of
`cond_form` in source order: `['else', *body]`, then `[test, *body]`. -/
def classifyCondClause : Exp → CondClause
  | .list (.sym "else" :: body) => .elseClause body
  | .list (test :: body) => .testClause test body
  | _ => .skipClause

/-- cond_form (`evaluator.py:135-146`): scan clauses in order; a clause
headed by the literal symbol `else` runs its body; otherwise a clause
`[test, *body]` runs its body when the test evaluates truthy; clauses
matching neither pattern are skipped; falling off the end returns Python
`None`. -/
def cond_form (ev : EvalFn) : List Exp → Nat → Store → Option (Except Err (Exp × Store))
  | [], _, s => some (.ok (.none, s))
  | clause :: rest, env, s =>
      match classifyCondClause clause with
      | .elseClause body => evalSeq ev body env s
      | .testClause test body =>
          resBind (ev test env s) fun v s₁ =>
            if truthy v then evalSeq ev body env s₁
            else cond_form ev rest env s₁
      | .skipClause => cond_form ev rest env s

/-- or_form (`evaluator.py:149-156`): `value = False`, then evaluate
operands left to right, returning the first truthy value immediately; if
the loop finishes, return the last value assigned (`False` when there were
no operands).  `value` is the loop variable. -/
def or_form_loop (ev : EvalFn) : Exp → List Exp → Nat → Store → Option (Except Err (Exp × Store))
  | value, [], _, s => some (.ok (value, s))
  | _, e :: rest, env, s =>
      resBind (ev e env s) fun v s₁ =>
        if truthy v then some (.ok (v, s₁)) else or_form_loop ev v rest env s₁

/-- and_form (`evaluator.py:159-166`): `value = True`, then evaluate
operands left to right, returning the first falsy value immediately; if
the loop finishes, return the last value assigned (`True` when there were
no operands). -/
def and_form_loop (ev : EvalFn) : Exp → List Exp → Nat → Store → Option (Except Err (Exp × Store))
  | value, [], _, s => some (.ok (value, s))
  | _, e :: rest, env, s =>
      resBind (ev e env s) fun v s₁ =>
        if truthy v then and_form_loop ev v rest env s₁ else some (.ok (v, s₁))

/-- Python `proc(*values)` (`evaluator.py:227`): calling a `Procedure` runs
`Procedure.__call__` (`evaluator.py:53-57`: build the application
environment, evaluate the body expressions in order, return the last
value); calling a modelled built-in runs it on the evaluated arguments;
calling anything else raises `TypeError` (`'int' object is not callable`
and kin). -/
def applyCallable (ev : EvalFn) : Exp → List Exp → Store → Option (Except Err (Exp × Store))
  | .proc parms body defEnv, args, s =>
      match application_env s parms args defEnv with
      | .error e => some (.error e)
      | .ok (s', callEnv) => evalSeq ev body callEnv s'
  | .prim p, args, s =>
      match applyPrim p args with
      | .ok v => some (.ok (v, s))
      | .error e => some (.error e)
  | _, _, _ => some (.error (.typeError "object is not callable"))

/-- The recognized shapes of the evaluator's `match exp`
(`evaluator.py:182-235`), one constructor per `case` arm (spec section 9
describes exactly this classification pass).  `selfEvalF` covers the
number-literal arm — whose `case int(x) | float(x)` pattern also matches
booleans, since Python `bool` subclasses `int` — and `invalidF` is the
final `case _`. -/
inductive Form where
  | selfEvalF (v : Exp)
  | variableF (v : String)
  | quoteF (e : Exp)
  | ifF (t c a : Exp)
  | defineF (var : String) (vexp : Exp)
  | setF (var : String) (vexp : Exp)
  | defineProcF (name : String) (parms : List Exp) (body : List Exp)
  | lambdaF (parms : List Exp) (body : List Exp)
  | condF (clauses : List Exp)
  | orF (exprs : List Exp)
  | andF (exprs : List Exp)
  | beginF (exprs : List Exp)
  | appF (op : Exp) (args : List Exp)
  | invalidF

/-- Classification of an expression, mirroring the `case` patterns of
`evaluate` (`evaluator.py:182-235`) in source order.  The two guarded
arms (`define`/`lambda` with `len(body) > 0`) and the application guard
(`op not in KEYWORDS`) classify as `invalidF` when the guard fails,
because in the source those shapes fall through every later pattern and
land on `case _`. -/
def classify : Exp → Form
  | .int x => .selfEvalF (.int x)
  | .float x => .selfEvalF (.float x)
  | .bool b => .selfEvalF (.bool b)
  | .sym v => .variableF v
  | .list [.sym "quote", e] => .quoteF e
  | .list [.sym "if", t, c, a] => .ifF t c a
  | .list [.sym "define", .sym var, vexp] => .defineF var vexp
  | .list [.sym "set!", .sym var, vexp] => .setF var vexp
  | .list (.sym "define" :: .list (.sym name :: parms) :: body) =>
      if body.isEmpty then .invalidF else .defineProcF name parms body
  | .list (.sym "lambda" :: .list parms :: body) =>
      if body.isEmpty then .invalidF else .lambdaF parms body
  | .list (.sym "cond" :: clauses) => .condF clauses
  | .list (.sym "or" :: exprs) => .orF exprs
  | .list (.sym "and" :: exprs) => .andF exprs
  | .list (.sym "begin" :: exprs) => .beginF exprs
  | .list (op :: args) => if isKeywordExp op then .invalidF else .appF op args
  | _ => .invalidF

/-- One classification-and-dispatch pass of evaluate
(`evaluator.py:179-236`): given the entry point `ev` used for every
recursive evaluation (the trampoline instantiates it with the evaluator at
one fuel unit less), classify `exp` and act on the recognized shape.  The
tail rewrites of the source's `while True` loop — `if` branches, the last
`begin` expression, and the procedure-application rewrite — re-enter
through `ev` exactly like the ordinary recursive calls, so one pass costs
one fuel unit regardless. -/
def evalStep (ev : EvalFn) (tco : Bool) (exp : Exp) (env : Nat) (s : Store) :
    Option (Except Err (Exp × Store)) :=
  match classify exp with
  | .selfEvalF v => some (.ok (v, s))
  | .variableF v =>
      match envLookup s env (.sym v) with
      | some val => some (.ok (val, s))
      | Option.none => some (.error (.undefinedSymbol v))
  | .quoteF e => some (.ok (e, s))
  | .ifF t c a =>
      resBind (ev t env s) fun v s₁ =>
        if truthy v then ev c env s₁ else ev a env s₁
  | .defineF var vexp =>
      resBind (ev vexp env s) fun v s₁ =>
        some (.ok (.none, envSetItem s₁ env (.sym var) v))
  | .setF var vexp =>
      resBind (ev vexp env s) fun v s₁ =>
        match envChange s₁ env (.sym var) v with
        | .ok s₂ => some (.ok (.none, s₂))
        | .error e => some (.error e)
  | .defineProcF name parms body =>
      some (.ok (.none, envSetItem s env (.sym name) (.proc parms body env)))
  | .lambdaF parms body => some (.ok (.proc parms body env, s))
  | .condF clauses => cond_form ev clauses env s
  | .orF exprs => or_form_loop ev (.bool false) exprs env s
  | .andF exprs => and_form_loop ev (.bool true) exprs env s
  | .beginF exprs =>
      match exprs.getLast? with
      | Option.none => some (.error .indexError)
      | some last =>
          resBind (evalList ev exprs.dropLast env s) fun _ s₁ =>
            ev last env s₁
  | .appF op args =>
      resBind (ev op env s) fun procv s₁ =>
        resBind (evalList ev args env s₁) fun values s₂ =>
          match tco, procv with
          | true, .proc parms body defEnv =>
              match application_env s₂ parms values defEnv with
              | .ok (s₃, callEnv) =>
                  ev (.list (.sym "begin" :: body)) callEnv s₃
              | .error e => some (.error e)
          | _, _ => wrapTypeError exp (applyCallable ev procv values s₂)
  | .invalidF => some (.error (.invalidSyntax (s_expr exp)))

/-- evaluate (`evaluator.py:179-236`).  The `while True` trampoline becomes
step fuel: every recursive call — a tail rewrite of the loop state as well
as an ordinary recursive call, including those made from inside the
special-form helpers, which receive `evaluate n tco` as their entry
point — costs one unit, and `Option.none` means the fuel ran out. -/
def evaluate : Nat → Bool → Exp → Nat → Store → Option (Except Err (Exp × Store))
  | 0, _, _, _, _ => Option.none
  | n + 1, tco, exp, env, s => evalStep (evaluate n tco) tco exp env s

/-! ## Concrete fixtures used by theorems below -/

/-- A one-object store: a single global environment (index 0) with one
frame binding the modelled built-ins and `#f` (as `standard_env` does at
`evaluator.py:94-100`). -/
def demoStore : Store :=
  [[MapEnt.frame [(Exp.sym "+", Exp.prim .add), (Exp.sym "#f", Exp.bool false),
      (Exp.sym "quotient", Exp.prim .quotient)]]]

/-- The program
`(begin (define x 1) (define (f) (define (g) (set! x 2)) (g) x) (f))`:
a global `x`, a procedure `f` whose local procedure `g` mutates `x` from a
call environment nested two frames below the frame that binds `x`. -/
def nestedSetProg : Exp :=
  .list [.sym "begin",
    .list [.sym "define", .sym "x", .int 1],
    .list [.sym "define", .list [.sym "f"],
      .list [.sym "define", .list [.sym "g"], .list [.sym "set!", .sym "x", .int 2]],
      .list [.sym "g"],
      .sym "x"],
    .list [.sym "f"]]

/-- The environment chain of `nestedSetProg` at the moment the `set!` runs:
object 0 is the global environment whose frame binds `x`, object 1 is
`f`'s call environment `Environment({}, global)`, object 2 is `g`'s call
environment `Environment({}, f's)`. -/
def nestedSetStore : Store :=
  [[MapEnt.frame [(Exp.sym "x", Exp.int 1)]],
   [MapEnt.frame [], MapEnt.ref 0],
   [MapEnt.frame [], MapEnt.ref 1]]

/-- An application whose operator evaluates to a user-defined procedure
with an unhashable parameter list: `((lambda ((1 2)) 3) 9)`.  The `lambda`
pattern (`evaluator.py:207`) accepts any list of parameter expressions, so
the resulting Procedure has the list `(1 2)` as its only parameter;
building the call frame then runs `dict(zip(parms, args))`
(`evaluator.py:50`) with that list as a dict key, which raises the host
TypeError. -/
def c5prog : Exp :=
  .list [.list [.sym "lambda", .list [.list [.int 1, .int 2]], .int 3], .int 9]

/-! ## Fuel monotonicity

The step fuel is a modelling artefact: once an evaluation completes within
some fuel, more fuel returns the same result.  The lemmas below establish
this for each helper (parametrically in the entry point) and then for
`evaluate` by induction on the fuel, so that `∃ fuel, ... = some r` is a
well-behaved notion of "the Python evaluation terminates with r". -/

/-- Pointwise refinement between two evaluator entry points: whatever the
first computes, the second computes as well. -/
def EvalLe (ev ev' : EvalFn) : Prop :=
  ∀ e env s r, ev e env s = some r → ev' e env s = some r

theorem resBind_mono {α β : Type} {x x' : Option (Except Err (α × Store))}
    {f f' : α → Store → Option (Except Err (β × Store))}
    (hx : ∀ r, x = some r → x' = some r)
    (hf : ∀ a s r, f a s = some r → f' a s = some r) :
    ∀ r, resBind x f = some r → resBind x' f' = some r := by
  intro r h
  cases hx0 : x with
  | none => rw [hx0] at h; exact absurd h (by simp [resBind])
  | some exc =>
      rw [hx _ hx0]
      rw [hx0] at h
      cases exc with
      | error e => exact h
      | ok p => exact hf p.1 p.2 r h

theorem evalList_mono {ev ev' : EvalFn} (hev : EvalLe ev ev') :
    ∀ es env s r, evalList ev es env s = some r → evalList ev' es env s = some r := by
  intro es
  induction es with
  | nil => intro env s r h; exact h
  | cons e rest ih =>
      intro env s r
      exact resBind_mono (hev e env s)
        (fun v s₁ r h => resBind_mono (fun r h => ih env s₁ r h)
          (fun vs s₂ r h => h) r h) r

theorem evalSeq_mono {ev ev' : EvalFn} (hev : EvalLe ev ev') :
    ∀ es env s r, evalSeq ev es env s = some r → evalSeq ev' es env s = some r := by
  intro es
  induction es with
  | nil => intro env s r h; exact h
  | cons e rest ih =>
      intro env s r h
      cases rest with
      | nil => exact hev e env s r h
      | cons e2 rest2 =>
          exact resBind_mono (hev e env s) (fun v s₁ r h => ih env s₁ r h) r h

theorem cond_form_mono {ev ev' : EvalFn} (hev : EvalLe ev ev') :
    ∀ cls env s r, cond_form ev cls env s = some r → cond_form ev' cls env s = some r := by
  intro cls
  induction cls with
  | nil => intro env s r h; exact h
  | cons clause rest ih =>
      intro env s r h
      rw [cond_form] at h ⊢
      generalize hcc : classifyCondClause clause = cc at h ⊢
      cases cc with
      | elseClause body =>
          exact evalSeq_mono hev body env s r h
      | testClause test body =>
          refine resBind_mono (hev test env s) (fun v s₁ r h => ?_) r h
          by_cases ht : truthy v = true
          · rw [if_pos ht] at h ⊢
            exact evalSeq_mono hev body env s₁ r h
          · rw [if_neg ht] at h ⊢
            exact ih env s₁ r h
      | skipClause =>
          exact ih env s r h

theorem or_form_loop_mono {ev ev' : EvalFn} (hev : EvalLe ev ev') :
    ∀ es value env s r, or_form_loop ev value es env s = some r →
      or_form_loop ev' value es env s = some r := by
  intro es
  induction es with
  | nil => intro value env s r h; exact h
  | cons e rest ih =>
      intro value env s r h
      refine resBind_mono (hev e env s) (fun v s₁ r h => ?_) r h
      by_cases ht : truthy v = true
      · rw [if_pos ht] at h ⊢; exact h
      · rw [if_neg ht] at h ⊢; exact ih v env s₁ r h

theorem and_form_loop_mono {ev ev' : EvalFn} (hev : EvalLe ev ev') :
    ∀ es value env s r, and_form_loop ev value es env s = some r →
      and_form_loop ev' value es env s = some r := by
  intro es
  induction es with
  | nil => intro value env s r h; exact h
  | cons e rest ih =>
      intro value env s r h
      refine resBind_mono (hev e env s) (fun v s₁ r h => ?_) r h
      by_cases ht : truthy v = true
      · rw [if_pos ht] at h ⊢; exact ih v env s₁ r h
      · rw [if_neg ht] at h ⊢; exact h

theorem applyCallable_mono {ev ev' : EvalFn} (hev : EvalLe ev ev') :
    ∀ callee args s r, applyCallable ev callee args s = some r →
      applyCallable ev' callee args s = some r := by
  intro callee args s r h
  cases callee with
  | proc parms body defEnv =>
      rw [applyCallable] at h ⊢
      generalize hae : application_env s parms args defEnv = ae at h ⊢
      cases ae with
      | error e => exact h
      | ok p => exact evalSeq_mono hev body p.2 p.1 r h
  | int n => exact h
  | float q => exact h
  | sym v => exact h
  | bool b => exact h
  | list xs => exact h
  | none => exact h
  | prim p => exact h

theorem wrapTypeError_mono {ast : Exp} {x x' : Option (Except Err (Exp × Store))}
    (hx : ∀ r, x = some r → x' = some r) :
    ∀ r, wrapTypeError ast x = some r → wrapTypeError ast x' = some r := by
  intro r h
  cases hx0 : x with
  | none => rw [hx0] at h; exact absurd h (by simp [wrapTypeError])
  | some exc =>
      rw [hx _ hx0]
      rw [hx0] at h
      exact h

theorem evalStep_mono {ev ev' : EvalFn} (hev : EvalLe ev ev') :
    ∀ tco exp env s r, evalStep ev tco exp env s = some r →
      evalStep ev' tco exp env s = some r := by
  intro tco exp env s r h
  rw [evalStep] at h ⊢
  generalize hcf : classify exp = cf at h ⊢
  cases cf with
  | selfEvalF v => exact h
  | variableF v => exact h
  | quoteF e => exact h
  | ifF t c a =>
      refine resBind_mono (hev t env s) (fun v s₁ r h => ?_) r h
      by_cases ht : truthy v = true
      · rw [if_pos ht] at h ⊢; exact hev c env s₁ r h
      · rw [if_neg ht] at h ⊢; exact hev a env s₁ r h
  | defineF var vexp =>
      exact resBind_mono (hev vexp env s) (fun v s₁ r h => h) r h
  | setF var vexp =>
      exact resBind_mono (hev vexp env s) (fun v s₁ r h => h) r h
  | defineProcF name parms body => exact h
  | lambdaF parms body => exact h
  | condF clauses => exact cond_form_mono hev clauses env s r h
  | orF exprs => exact or_form_loop_mono hev exprs _ env s r h
  | andF exprs => exact and_form_loop_mono hev exprs _ env s r h
  | beginF exprs =>
      dsimp only at h ⊢
      generalize hl : exprs.getLast? = lastq at h ⊢
      cases lastq with
      | none => exact h
      | some last =>
          exact resBind_mono (fun r h => evalList_mono hev _ env s r h)
            (fun a s₁ r h => hev last env s₁ r h) r h
  | appF op args =>
      refine resBind_mono (hev op env s) (fun procv s₁ r h => ?_) r h
      refine resBind_mono (fun r h => evalList_mono hev args env s₁ r h)
        (fun values s₂ r h => ?_) r h
      cases tco with
      | false => exact wrapTypeError_mono (fun r h => applyCallable_mono hev procv values s₂ r h) r h
      | true =>
          cases procv with
          | proc parms body defEnv =>
              dsimp only at h ⊢
              generalize hae : application_env s₂ parms values defEnv = ae at h ⊢
              cases ae with
              | error e => exact h
              | ok p => exact hev _ p.2 p.1 r h
          | int n => exact wrapTypeError_mono (fun r h => applyCallable_mono hev _ values s₂ r h) r h
          | float q => exact wrapTypeError_mono (fun r h => applyCallable_mono hev _ values s₂ r h) r h
          | sym v => exact wrapTypeError_mono (fun r h => applyCallable_mono hev _ values s₂ r h) r h
          | bool b => exact wrapTypeError_mono (fun r h => applyCallable_mono hev _ values s₂ r h) r h
          | list xs => exact wrapTypeError_mono (fun r h => applyCallable_mono hev _ values s₂ r h) r h
          | none => exact wrapTypeError_mono (fun r h => applyCallable_mono hev _ values s₂ r h) r h
          | prim p => exact wrapTypeError_mono (fun r h => applyCallable_mono hev _ values s₂ r h) r h
  | invalidF => exact h

theorem evaluate_mono_succ :
    ∀ n tco exp env s r, evaluate n tco exp env s = some r →
      evaluate (n + 1) tco exp env s = some r := by
  intro n
  induction n with
  | zero => intro tco exp env s r h; exact absurd h (by simp [evaluate])
  | succ n ih =>
      intro tco exp env s r h
      exact evalStep_mono (fun e env s r h => ih tco e env s r h) tco exp env s r h

theorem evaluate_mono {n m : Nat} (hnm : n ≤ m) :
    ∀ tco exp env s r, evaluate n tco exp env s = some r →
      evaluate m tco exp env s = some r := by
  induction hnm with
  | refl => intro tco exp env s r h; exact h
  | step _ ih =>
      intro tco exp env s r h
      exact evaluate_mono_succ _ tco exp env s r (ih tco exp env s r h)

theorem evaluate_agree {n m : Nat} {tco : Bool} {exp : Exp} {env : Nat}
    {s : Store} {r r' : Except Err (Exp × Store)}
    (h1 : evaluate n tco exp env s = some r)
    (h2 : evaluate m tco exp env s = some r') : r = r' := by
  rcases Nat.le_total n m with hle | hle
  · have h3 := evaluate_mono hle tco exp env s r h1
    rw [h3] at h2
    exact Option.some.inj h2
  · have h3 := evaluate_mono hle tco exp env s r' h2
    rw [h3] at h1
    exact (Option.some.inj h1).symm

/-! ## Dispatch and sequencing lemmas -/

set_option maxHeartbeats 2000000 in
/-- A list headed by a non-keyword operator classifies as an application:
the guard `op not in KEYWORDS` is all that separates the application case
from `case _`, because every special-form pattern requires a keyword
head. -/
theorem classify_app {op : Exp} (args : List Exp) (hkw : isKeywordExp op = false) :
    classify (.list (op :: args)) = .appF op args := by
  cases op with
  | sym st =>
      rw [classify.eq_def]
      split <;> simp_all [isKeywordExp, KEYWORDS, KEYWORDS_1, KEYWORDS_2]
      rename_i heq
      obtain ⟨h1, h2⟩ := heq
      subst h1
      subst h2
      simp_all
  | int n => rfl
  | float q => rfl
  | bool b => rfl
  | list xs => rfl
  | none => rfl
  | proc parms body envId => rfl
  | prim p => rfl

theorem resBind_congr {α β : Type} {x y : Option (Except Err (α × Store))}
    {f g : α → Store → Option (Except Err (β × Store))}
    (hxy : x = y) (hfg : ∀ a s, f a s = g a s) : resBind x f = resBind y g := by
  subst hxy
  cases x with
  | none => rfl
  | some exc =>
      cases exc with
      | error e => rfl
      | ok p => exact hfg p.1 p.2

theorem resBind_assoc {α β γ : Type} {x : Option (Except Err (α × Store))}
    {f : α → Store → Option (Except Err (β × Store))}
    {g : β → Store → Option (Except Err (γ × Store))} :
    resBind (resBind x f) g = resBind x fun a s => resBind (f a s) g := by
  cases x with
  | none => rfl
  | some exc =>
      cases exc with
      | error e => rfl
      | ok p => rfl

/-- Unfolding of `evalSeq` on a list of at least two expressions. -/
theorem evalSeq_cons (ev : EvalFn) (x y : Exp) (ys : List Exp) (env : Nat) (s : Store) :
    evalSeq ev (x :: y :: ys) env s
      = resBind (ev x env s) fun _ s₁ => evalSeq ev (y :: ys) env s₁ := rfl

/-- The body loop of `Procedure.__call__` on `es ++ [e]` is: evaluate `es`
for effect, then evaluate `e` for the result — the same decomposition the
`begin` arm of the trampoline performs with `dropLast`/last. -/
theorem seq_append (ev : EvalFn) :
    ∀ (es : List Exp) (e : Exp) (env : Nat) (s : Store),
      evalSeq ev (es ++ [e]) env s
        = resBind (evalList ev es env s) fun _ s₁ => ev e env s₁ := by
  intro es
  induction es with
  | nil => intro e env s; rfl
  | cons x xs ih =>
      intro e env s
      rw [List.cons_append]
      obtain ⟨y, ys, hy⟩ : ∃ y ys, xs ++ [e] = y :: ys := by
        cases xs with
        | nil => exact ⟨e, [], rfl⟩
        | cons a as => exact ⟨a, as ++ [e], rfl⟩
      rw [hy, evalSeq_cons, ← hy]
      show resBind (ev x env s) (fun _ s₁ => evalSeq ev (xs ++ [e]) env s₁)
        = resBind (resBind (ev x env s) fun v s₁ =>
            resBind (evalList ev xs env s₁) fun vs s₂ => some (.ok (v :: vs, s₂)))
            (fun _ s₁ => ev e env s₁)
      rw [resBind_assoc]
      refine resBind_congr rfl (fun v s₁ => ?_)
      rw [ih e env s₁, resBind_assoc]
      exact resBind_congr rfl (fun vs s₂ => rfl)

/-- The trampoline's `begin` arm computes exactly the body loop of
`Procedure.__call__`: evaluating `(begin E₁ ... Eₖ)` (k ≥ 1) is evaluating
`E₁ ... Eₖ` in order and keeping the last value. -/
theorem begin_eq_seq {body : List Exp} (hbody : body ≠ []) (n : Nat) (tco : Bool)
    (env : Nat) (s : Store) :
    evaluate (n + 1) tco (.list (.sym "begin" :: body)) env s
      = evalSeq (evaluate n tco) body env s := by
  have h1 : evaluate (n + 1) tco (.list (.sym "begin" :: body)) env s
      = (match body.getLast? with
         | Option.none => some (.error Err.indexError)
         | some last => resBind (evalList (evaluate n tco) body.dropLast env s)
             (fun _ s₁ => evaluate n tco last env s₁)) := rfl
  rw [h1, List.getLast?_eq_getLast body hbody]
  show resBind (evalList (evaluate n tco) body.dropLast env s)
      (fun _ s₁ => evaluate n tco (body.getLast hbody) env s₁)
    = evalSeq (evaluate n tco) body env s
  rw [← seq_append (evaluate n tco) body.dropLast (body.getLast hbody) env s]
  rw [List.dropLast_append_getLast hbody]

/-! ## Claims -/

/-- C1: the claim fails on the code.  `Environment.change`'s docstring
("Find where key is defined and change the value there") and the spec's
invariant call for `set!` to overwrite the binding in the frame where
chain lookup first finds it; but when an element of `maps` is a *nested*
environment (as every call environment's second element is), the loop's
`map[key] = value` is `ChainMap.__setitem__`, which writes into that
nested environment's first map.  Concretely, in
`(begin (define x 1) (define (f) (define (g) (set! x 2)) (g) x) (f))` the
`set!` inside `g` creates a fresh binding `x = 2` in `f`'s local frame:
the program returns 2, yet the global binding of `x` — the only frame that
contained `x` — still holds 1 afterwards, and at the `Environment.change`
level the update lands in environment 1's frame while environment 0's
frame is untouched. -/
theorem c1_set_in_nested_env_shadows_instead_of_updating :
    (evaluate 40 true nestedSetProg 0 demoStore).map (fun r => r.map Prod.fst)
      = some (.ok (.int 2))
    ∧ (evaluate 40 true nestedSetProg 0 demoStore).map
        (fun r => r.map (fun p => envLookup p.2 0 (.sym "x")))
      = some (.ok (some (.int 1)))
    ∧ envChange nestedSetStore 2 (.sym "x") (.int 2)
      = .ok [[MapEnt.frame [(Exp.sym "x", Exp.int 1)]],
             [MapEnt.frame [(Exp.sym "x", Exp.int 2)], MapEnt.ref 0],
             [MapEnt.frame [], MapEnt.ref 1]]
    ∧ evaluate 3 true (.list [.sym "set!", .sym "x", .int 2]) 2 nestedSetStore
      = some (.ok (.none,
          [[MapEnt.frame [(Exp.sym "x", Exp.int 1)]],
           [MapEnt.frame [(Exp.sym "x", Exp.int 2)], MapEnt.ref 0],
           [MapEnt.frame [], MapEnt.ref 1]])) :=
  ⟨rfl, rfl, rfl, rfl⟩

/-- C3: the claim fails on the code.  `Environment.change` raises a bare
`KeyError(key)` (`evaluator.py:36`) and the `set!` arm of `evaluate` does
not convert it (`evaluator.py:200-202`), unlike the symbol-lookup arm
which wraps its `KeyError` into `UndefinedSymbol` (`evaluator.py:186-189`).
Evaluating `(set! x 1)` with `x` absent from every frame therefore raises
the host `KeyError`, not the evaluator's typed error — so it escapes the
REPL's `except EvaluatorException` handler (`mylis.py:117-120`). -/
theorem c3_set_unbound_raises_keyerror_not_undefined_symbol :
    evaluate 3 true (.list [.sym "set!", .sym "x", .int 1]) 0 [[MapEnt.frame []]]
      = some (.error (.keyError (.sym "x")))
    ∧ Err.keyError (.sym "x") ≠ Err.undefinedSymbol "x"
    ∧ evaluate 3 true (.sym "x") 0 [[MapEnt.frame []]]
      = some (.error (.undefinedSymbol "x")) :=
  ⟨rfl, fun h => Err.noConfusion h, rfl⟩

/-- C4: the claim fails on the code at `(begin)`.  The pattern
`['begin', *expressions]` (`evaluator.py:215`) accepts zero
subexpressions although the code's own comment documents the shape as
`(begin exp+)`; `expressions[-1]` then raises the host `IndexError`
instead of `InvalidSyntax`, and that exception escapes the evaluator's
typed taxonomy (the REPL catches only `EvaluatorException`,
`mylis.py:117-120`).  The claim's other cited shapes do raise
`InvalidSyntax` carrying the printed form: `if` with wrong arity and the
empty list in operator position. -/
theorem c4_begin_empty_raises_indexerror_not_invalidsyntax :
    evaluate 2 true (.list [.sym "begin"]) 0 [[MapEnt.frame []]]
      = some (.error .indexError)
    ∧ Err.indexError ≠ Err.invalidSyntax "(begin)"
    ∧ evaluate 2 true (.list [.sym "if", .int 1]) 0 [[MapEnt.frame []]]
      = some (.error (.invalidSyntax "(if 1)"))
    ∧ evaluate 2 true (.list []) 0 [[MapEnt.frame []]]
      = some (.error (.invalidSyntax "()"))
    ∧ evaluate 2 true (.list [.sym "lambda", .list [.sym "x"]]) 0 [[MapEnt.frame []]]
      = some (.error (.invalidSyntax "(lambda (x))")) :=
  ⟨rfl, fun h => Err.noConfusion h, rfl, rfl, rfl⟩

/-- C2 counterexample: the claim declares the no-value sentinel truthy,
but Python's `bool(None)` is `False`, and the evaluator branches on host
truthiness (`evaluator.py:193`).  `None` is falsy yet is none of the
claim's falsy values, and an `if` whose test evaluates to the sentinel
(the result of a `define`) takes the alternative branch, where the claim
requires the consequence. -/
theorem c2_counterexample_no_value_sentinel_is_falsy :
    truthy Exp.none = false
    ∧ Exp.none ≠ Exp.bool false
    ∧ Exp.none ≠ Exp.int 0
    ∧ Exp.none ≠ Exp.float 0
    ∧ Exp.none ≠ Exp.list []
    ∧ (evaluate 10 true
        (.list [.sym "if", .list [.sym "define", .sym "y", .int 1], .int 1, .int 2])
        0 [[MapEnt.frame []]]).map (fun r => r.map Prod.fst)
      = some (.ok (.int 2)) :=
  ⟨rfl, fun h => Exp.noConfusion h, fun h => Exp.noConfusion h,
   fun h => Exp.noConfusion h, fun h => Exp.noConfusion h, rfl⟩

/-- C2 (amended): a single value is falsy iff it is the boolean false
value, numeric zero of either kind, the empty list, the no-value sentinel
(Python `None`), or the empty symbol (a value the reader can never
produce); every other value — non-empty lists, non-zero numbers,
non-empty symbols, procedures, built-ins — is truthy.  This predicate
governs the branch taken by `if`, the clause selection of `cond`, and the
short-circuiting of `or` and `and`. -/
theorem c2_truthiness_characterization_and_governance :
    (∀ v : Exp, truthy v = false ↔
       (v = .bool false ∨ v = .int 0 ∨ v = .float 0 ∨ v = .list [] ∨ v = .none
          ∨ v = .sym ""))
    ∧ (∀ (n : Nat) (tco : Bool) (v c a : Exp) (env : Nat) (s : Store),
        evaluate (n + 2) tco (.list [.sym "if", .list [.sym "quote", v], c, a]) env s
          = if truthy v then evaluate (n + 1) tco c env s
            else evaluate (n + 1) tco a env s)
    ∧ (∀ (n : Nat) (tco : Bool) (v c : Exp) (env : Nat) (s : Store),
        evaluate (n + 3) tco (.list [.sym "cond", .list [.list [.sym "quote", v], c]]) env s
          = if truthy v then evaluate (n + 2) tco c env s else some (.ok (.none, s)))
    ∧ (∀ (n : Nat) (tco : Bool) (v : Exp) (rest : List Exp) (env : Nat) (s : Store),
        truthy v = true →
          evaluate (n + 2) tco (.list (.sym "or" :: .list [.sym "quote", v] :: rest)) env s
            = some (.ok (v, s)))
    ∧ (∀ (n : Nat) (tco : Bool) (v : Exp) (rest : List Exp) (env : Nat) (s : Store),
        truthy v = false →
          evaluate (n + 2) tco (.list (.sym "and" :: .list [.sym "quote", v] :: rest)) env s
            = some (.ok (v, s))) := by
  refine ⟨fun v => by cases v <;> simp [truthy], fun n tco v c a env s => rfl,
    fun n tco v c env s => rfl, fun n tco v rest env s h => ?_, fun n tco v rest env s h => ?_⟩
  · show (if truthy v then some (.ok (v, s))
        else or_form_loop (evaluate (n + 1) tco) v rest env s)
      = some (.ok (v, s))
    rw [if_pos h]
  · show (if truthy v then and_form_loop (evaluate (n + 1) tco) v rest env s
        else some (.ok (v, s)))
      = some (.ok (v, s))
    rw [if_neg (by rw [h]; exact Bool.false_ne_true)]

/-- Concrete instances of the C2 theorem: `5` is truthy and short-circuits
`(or (quote 5) zzz)` without touching `zzz`; `0` is falsy and
short-circuits `(and (quote 0) zzz)`. -/
theorem c2_truthiness_characterization_and_governance_witness :
    evaluate 2 true (.list [.sym "or", .list [.sym "quote", .int 5], .sym "zzz"]) 0 []
      = some (.ok (.int 5, []))
    ∧ evaluate 2 true (.list [.sym "and", .list [.sym "quote", .int 0], .sym "zzz"]) 0 []
      = some (.ok (.int 0, [])) :=
  ⟨c2_truthiness_characterization_and_governance.2.2.2.1 0 true (.int 5) [.sym "zzz"] 0 [] rfl,
   c2_truthiness_characterization_and_governance.2.2.2.2 0 true (.int 0) [.sym "zzz"] 0 [] rfl⟩

set_option maxHeartbeats 1000000 in
/-- C10: applying a value that is neither a `Procedure` nor a callable
primitive raises no dedicated not-callable error: the host `TypeError`
from `proc(*values)` is caught by the same `except TypeError` that guards
primitive invocation (`evaluator.py:226-232`) and re-raised as the
`EvaluatorException` carrying the printed source form and the raw
expression tree — as the concrete conjunct shows, the identical error
constructor and payloads a primitive arity failure like `(quotient 1)`
produces. -/
theorem c10_noncallable_application_raises_wrapped_evaluator_exception :
    (∀ (n : Nat) (tco : Bool) (op : Exp) (args : List Exp) (env : Nat)
        (s s₁ s₂ : Store) (v : Exp) (values : List Exp),
      isKeywordExp op = false →
      evaluate n tco op env s = some (.ok (v, s₁)) →
      evalList (evaluate n tco) args env s₁ = some (.ok (values, s₂)) →
      (∀ parms body e, v ≠ .proc parms body e) →
      (∀ p, v ≠ .prim p) →
      evaluate (n + 1) tco (.list (op :: args)) env s
        = some (.error (.evaluatorException (s_expr (.list (op :: args)))
            (.list (op :: args)))))
    ∧ evaluate 2 true (.list [.sym "quotient", .int 1]) 0 demoStore
      = some (.error (.evaluatorException "(quotient 1)"
          (.list [.sym "quotient", .int 1]))) := by
  refine ⟨fun n tco op args env s s₁ s₂ v values hkw hop hargs hnp hnb => ?_, rfl⟩
  have hstep : evaluate (n + 1) tco (.list (op :: args)) env s
      = evalStep (evaluate n tco) tco (.list (op :: args)) env s := rfl
  rw [hstep, evalStep, classify_app args hkw]
  dsimp only
  rw [hop]
  dsimp only [resBind]
  rw [hargs]
  dsimp only [resBind]
  cases tco <;> cases v
  case true.proc parms body e => exact absurd rfl (hnp parms body e)
  case false.proc parms body e => exact absurd rfl (hnp parms body e)
  case true.prim p => exact absurd rfl (hnb p)
  case false.prim p => exact absurd rfl (hnb p)
  all_goals rfl

/-- Concrete instance of the C10 theorem: `(5 1 2)` — a number in operator
position — produces the wrapped `EvaluatorException` with the printed
source `(5 1 2)` and the raw expression tree. -/
theorem c10_noncallable_application_raises_wrapped_evaluator_exception_witness :
    evaluate 2 true (.list [.int 5, .int 1, .int 2]) 0 [[MapEnt.frame []]]
      = some (.error (.evaluatorException "(5 1 2)"
          (.list [.int 5, .int 1, .int 2]))) :=
  c10_noncallable_application_raises_wrapped_evaluator_exception.1
    1 true (.int 5) [.int 1, .int 2] 0 [[MapEnt.frame []]] [[MapEnt.frame []]]
    [[MapEnt.frame []]] (.int 5) [.int 1, .int 2] rfl rfl rfl
    (fun _ _ _ h => Exp.noConfusion h) (fun _ h => Exp.noConfusion h)

/-! ## Frame and call-environment lemmas -/

theorem frameGet_nil (k : Exp) : frameGet [] k = Option.none := rfl

theorem frameGet_cons (k0 v0 k : Exp) (rest : Frame) :
    frameGet ((k0, v0) :: rest) k = if k0 = k then some v0 else frameGet rest k := by
  by_cases h : k0 = k
  · subst h
    rw [if_pos rfl]
    unfold frameGet
    rw [List.find?_cons_of_pos _ (by simp)]
    rfl
  · rw [if_neg h]
    unfold frameGet
    rw [List.find?_cons_of_neg _ (by simp [h])]

theorem frameHas_nil (k : Exp) : frameHas [] k = false := rfl

theorem frameHas_cons (k0 v0 k : Exp) (rest : Frame) :
    frameHas ((k0, v0) :: rest) k = (decide (k0 = k) || frameHas rest k) := by
  simp [frameHas]
  rfl

theorem frameSet_nil (k v : Exp) : frameSet [] k v = [(k, v)] := rfl

theorem frameSet_cons (k0 v0 k v : Exp) (rest : Frame) :
    frameSet ((k0, v0) :: rest) k v
      = if k0 = k then (k0, v) :: rest else (k0, v0) :: frameSet rest k v := by
  by_cases h : k0 = k
  · rw [if_pos h]
    show (if (k0 == k) then _ else _) = _
    rw [if_pos (by simp [h])]
  · rw [if_neg h]
    show (if (k0 == k) then _ else _) = _
    rw [if_neg (by simp [h])]

theorem frameGet_frameSet_self (f : Frame) (k v : Exp) :
    frameGet (frameSet f k v) k = some v := by
  induction f with
  | nil => rw [frameSet_nil, frameGet_cons, if_pos rfl]
  | cons e rest ih =>
      obtain ⟨k0, v0⟩ := e
      rw [frameSet_cons]
      by_cases h : k0 = k
      · rw [if_pos h, frameGet_cons, if_pos h]
      · rw [if_neg h, frameGet_cons, if_neg h]
        exact ih

theorem frameGet_frameSet_ne (f : Frame) (k v k' : Exp) (h : k' ≠ k) :
    frameGet (frameSet f k v) k' = frameGet f k' := by
  induction f with
  | nil =>
      rw [frameSet_nil, frameGet_cons, if_neg (fun hh => h hh.symm), frameGet_nil]
  | cons e rest ih =>
      obtain ⟨k0, v0⟩ := e
      rw [frameSet_cons]
      by_cases hk : k0 = k
      · subst hk
        rw [if_pos rfl, frameGet_cons, frameGet_cons, if_neg (fun hh => h hh.symm),
          if_neg (fun hh => h hh.symm)]
      · rw [if_neg hk, frameGet_cons, frameGet_cons]
        by_cases hk2 : k0 = k'
        · rw [if_pos hk2, if_pos hk2]
        · rw [if_neg hk2, if_neg hk2]
          exact ih

theorem frameHas_frameSet (f : Frame) (k v k' : Exp) :
    frameHas (frameSet f k v) k' = true ↔ (k' = k ∨ frameHas f k' = true) := by
  induction f with
  | nil =>
      rw [frameSet_nil, frameHas_cons, frameHas_nil]
      simp [eq_comm]
  | cons e rest ih =>
      obtain ⟨k0, v0⟩ := e
      by_cases hk : k0 = k
      · subst hk
        rw [frameSet_cons, if_pos rfl, frameHas_cons, frameHas_cons]
        constructor
        · exact fun h1 => Or.inr h1
        · rintro (h1 | h2)
          · simp [h1]
          · exact h2
      · rw [frameSet_cons, if_neg hk, frameHas_cons, frameHas_cons]
        simp only [Bool.or_eq_true, decide_eq_true_eq]
        constructor
        · rintro (h1 | h2)
          · exact Or.inr (Or.inl h1)
          · rcases ih.1 h2 with h3 | h4
            · exact Or.inl h3
            · exact Or.inr (Or.inr h4)
        · rintro (h1 | h2 | h3)
          · exact Or.inr (ih.2 (Or.inl h1))
          · exact Or.inl h2
          · exact Or.inr (ih.2 (Or.inr h3))

theorem frameHas_frameSet_ne (f : Frame) (k v k' : Exp) (h : k' ≠ k) :
    frameHas (frameSet f k v) k' = frameHas f k' := by
  cases hx : frameHas (frameSet f k v) k' with
  | true =>
      rcases (frameHas_frameSet f k v k').1 hx with h1 | h2
      · exact absurd h1 h
      · exact h2.symm
  | false =>
      cases hy : frameHas f k' with
      | false => rfl
      | true =>
          have h3 := (frameHas_frameSet f k v k').2 (Or.inr hy)
          rw [hx] at h3
          exact absurd h3 (by simp)

/-- Behaviour of `dict(zip(parms, args))` with symbol keys, relative to an
arbitrary starting dict `f0`: insertion succeeds, keys outside the bound
prefix of `parms` are untouched, distinct parameters map positionally to
their arguments, and every key present was either inserted from the
prefix or already present. -/
theorem dictZipPairs_spec :
    ∀ (parms values : List Exp) (f0 : Frame),
      (∀ p ∈ parms, ∃ nm, p = Exp.sym nm) →
      ∃ fr, dictZipPairs (parms.zip values) f0 = .ok fr
        ∧ (∀ k, k ∉ parms.take values.length →
              frameGet fr k = frameGet f0 k ∧ frameHas fr k = frameHas f0 k)
        ∧ (parms.Nodup →
            ∀ i (h1 : i < parms.length) (h2 : i < values.length),
              frameGet fr parms[i] = some values[i])
        ∧ (∀ k, frameHas fr k = true → k ∈ parms.take values.length ∨ frameHas f0 k = true) := by
  intro parms
  induction parms with
  | nil =>
      intro values f0 _
      exact ⟨f0, rfl, fun k _ => ⟨rfl, rfl⟩, fun _ i h1 => absurd h1 (Nat.not_lt_zero i),
        fun k h => Or.inr h⟩
  | cons p ps ih =>
      intro values f0 hsym
      cases values with
      | nil =>
          exact ⟨f0, rfl, fun k _ => ⟨rfl, rfl⟩,
            fun _ i _ h2 => absurd h2 (Nat.not_lt_zero i), fun k h => Or.inr h⟩
      | cons v vs =>
          obtain ⟨nm, hp⟩ := hsym p (List.mem_cons_self _ _)
          subst hp
          obtain ⟨fr, hfr, huntouched, hpos, hhas⟩ :=
            ih vs (frameSet f0 (.sym nm) v) (fun q hq => hsym q (List.mem_cons_of_mem _ hq))
          refine ⟨fr, hfr, ?_, ?_, ?_⟩
          · intro k hk
            rw [List.length_cons, List.take_succ_cons] at hk
            have hk1 : k ≠ Exp.sym nm := fun h => hk (h ▸ List.mem_cons_self _ _)
            have hk2 : k ∉ ps.take vs.length := fun h => hk (List.mem_cons_of_mem _ h)
            obtain ⟨hg, hh⟩ := huntouched k hk2
            exact ⟨by rw [hg, frameGet_frameSet_ne _ _ _ _ hk1],
              by rw [hh, frameHas_frameSet_ne _ _ _ _ hk1]⟩
          · intro hnd i h1 h2
            cases i with
            | zero =>
                have hnotin : Exp.sym nm ∉ ps.take vs.length := fun hmem =>
                  (List.nodup_cons.mp hnd).1 (List.mem_of_mem_take hmem)
                have hg := (huntouched _ hnotin).1
                show frameGet fr (Exp.sym nm) = some v
                rw [hg, frameGet_frameSet_self]
            | succ j =>
                have h1' : j < ps.length := Nat.lt_of_succ_lt_succ h1
                have h2' : j < vs.length := Nat.lt_of_succ_lt_succ h2
                have h3 := hpos (List.nodup_cons.mp hnd).2 j h1' h2'
                simpa using h3
          · intro k hk
            rw [List.length_cons, List.take_succ_cons]
            rcases hhas k hk with h1 | h2
            · exact Or.inl (List.mem_cons_of_mem _ h1)
            · rcases (frameHas_frameSet f0 (.sym nm) v k).1 h2 with h3 | h4
              · exact Or.inl (h3 ▸ List.mem_cons_self _ _)
              · exact Or.inr h4

/-- C6: `Procedure.application_env` builds the call environment by
`dict(zip(parms, args))`, which binds exactly the overlapping prefix
positionally: extra arguments are dropped (every key of the local frame
comes from the bound prefix of the parameter list), missing parameters
get no binding in the new frame, and no arity error is raised — the
closed conjuncts run `((lambda (x y) 42) 1)` and
`((lambda (x) 42) 1 2 3)` to completion, and show that referencing the
unbound parameter `y` in `((lambda (x y) y) 1)` surfaces as
`UndefinedSymbol`. -/
theorem c6_application_env_binds_overlapping_prefix :
    (∀ (parms values : List Exp) (defEnv : Nat) (s : Store),
      (∀ p ∈ parms, ∃ nm, p = Exp.sym nm) →
      parms.Nodup →
      ∃ fr, dictZip parms values = .ok fr
        ∧ application_env s parms values defEnv
            = .ok (s ++ [[MapEnt.frame fr, MapEnt.ref defEnv]], s.length)
        ∧ (∀ i (h1 : i < parms.length) (h2 : i < values.length),
            frameGet fr parms[i] = some values[i])
        ∧ (∀ i (h1 : i < parms.length), values.length ≤ i →
            frameGet fr parms[i] = Option.none)
        ∧ (∀ k, frameHas fr k = true → k ∈ parms.take values.length))
    ∧ (evaluate 6 true
        (.list [.list [.sym "lambda", .list [.sym "x", .sym "y"], .int 42], .int 1])
        0 [[MapEnt.frame []]]).map (fun r => r.map Prod.fst) = some (.ok (.int 42))
    ∧ (evaluate 6 true
        (.list [.list [.sym "lambda", .list [.sym "x"], .int 42], .int 1, .int 2, .int 3])
        0 [[MapEnt.frame []]]).map (fun r => r.map Prod.fst) = some (.ok (.int 42))
    ∧ (evaluate 6 true
        (.list [.list [.sym "lambda", .list [.sym "x", .sym "y"], .sym "y"], .int 1])
        0 [[MapEnt.frame []]]).map (fun r => r.map Prod.fst)
      = some (.error (.undefinedSymbol "y")) := by
  refine ⟨?_, rfl, rfl, rfl⟩
  intro parms values defEnv s hsym hnd
  obtain ⟨fr, hfr, huntouched, hpos, hhas⟩ := dictZipPairs_spec parms values [] hsym
  have hdz : dictZip parms values = .ok fr := hfr
  refine ⟨fr, hdz, ?_, hpos hnd, ?_, ?_⟩
  · show (dictZip parms values).map _ = _
    rw [hdz]
    rfl
  · intro i h1 hge
    have hnotin : parms[i] ∉ parms.take values.length := by
      intro hmem
      obtain ⟨j, hj, hje⟩ := List.getElem_of_mem hmem
      have hjlt : j < values.length := by
        have hx := hj
        rw [List.length_take] at hx
        omega
      have hjp : j < parms.length := by
        have hx := hj
        rw [List.length_take] at hx
        omega
      rw [List.getElem_take] at hje
      have : j = i := (List.Nodup.getElem_inj_iff hnd).mp hje
      omega
    have hg := (huntouched _ hnotin).1
    rw [hg]
    rfl
  · intro k hk
    rcases hhas k hk with h1 | h2
    · exact h1
    · rw [frameHas_nil] at h2
      exact absurd h2 (by simp)

/-- Concrete instance of the C6 theorem: `dict(zip(["x", "y"], [1]))`
binds `x` to 1 and leaves `y` unbound. -/
theorem c6_application_env_binds_overlapping_prefix_witness :
    ∃ fr, dictZip [Exp.sym "x", Exp.sym "y"] [Exp.int 1] = .ok fr
      ∧ frameGet fr (Exp.sym "x") = some (Exp.int 1)
      ∧ frameGet fr (Exp.sym "y") = Option.none := by
  obtain ⟨fr, h1, _, h3, h4, _⟩ :=
    c6_application_env_binds_overlapping_prefix.1
      [Exp.sym "x", Exp.sym "y"] [Exp.int 1] 0 [[MapEnt.frame []]]
      (by
        intro p hp
        fin_cases hp
        · exact ⟨"x", rfl⟩
        · exact ⟨"y", rfl⟩)
      (by decide)
  refine ⟨fr, h1, ?_, ?_⟩
  · have := h3 0 (by decide) (by decide)
    simpa using this
  · have := h4 1 (by decide) (by decide)
    simpa using this

theorem resBind_eq_some {α β : Type} {x : Option (Except Err (α × Store))}
    {f : α → Store → Option (Except Err (β × Store))} {r : Except Err (β × Store)} :
    resBind x f = some r ↔
      ((∃ e, x = some (.error e) ∧ r = .error e)
        ∨ (∃ a s', x = some (.ok (a, s')) ∧ f a s' = some r)) := by
  cases x with
  | none => simp [resBind]
  | some exc =>
      cases exc with
      | error e =>
          simp only [resBind, Option.some.injEq, Except.error.injEq]
          constructor
          · intro h
            exact Or.inl ⟨e, rfl, h.symm⟩
          · rintro (⟨e', he, hr⟩ | ⟨a, s', he, _⟩)
            · rw [hr, he]
            · exact absurd he (by simp)
      | ok p =>
          obtain ⟨a, s'⟩ := p
          simp only [resBind]
          constructor
          · intro h
            exact Or.inr ⟨a, s', rfl, h⟩
          · rintro (⟨e', he, hr⟩ | ⟨a', s'', he, hf⟩)
            · exact absurd he (by simp)
            · obtain ⟨h1, h2⟩ := Prod.mk.injEq .. ▸ (Except.ok.inj (Option.some.inj he))
              subst h1
              subst h2
              exact hf

theorem evalList_cons_ok {ev : EvalFn} {e : Exp} {rest : List Exp} {env : Nat}
    {s s₂ : Store} {vs : List Exp}
    (h : evalList ev (e :: rest) env s = some (.ok (vs, s₂))) :
    ∃ v s₁ ws, ev e env s = some (.ok (v, s₁))
      ∧ evalList ev rest env s₁ = some (.ok (ws, s₂)) ∧ vs = v :: ws := by
  rcases resBind_eq_some.mp h with ⟨e', _, hr⟩ | ⟨v, s₁, hx, hf⟩
  · exact absurd hr (by simp)
  · rcases resBind_eq_some.mp hf with ⟨e', _, hr⟩ | ⟨ws, s₂', hy, hg⟩
    · exact absurd hr (by simp)
    · have := Option.some.inj hg
      have h1 := Except.ok.inj this
      obtain ⟨h2, h3⟩ := Prod.mk.injEq .. ▸ h1
      exact ⟨v, s₁, ws, hx, h3 ▸ hy, h2.symm⟩

theorem or_loop_first_truthy {ev : EvalFn} :
    ∀ (pre vs : List Exp) (acc e v : Exp) (rest : List Exp)
      (env : Nat) (s s₁ s₂ : Store),
      evalList ev pre env s = some (.ok (vs, s₁)) →
      (∀ w ∈ vs, truthy w = false) →
      ev e env s₁ = some (.ok (v, s₂)) →
      truthy v = true →
      or_form_loop ev acc (pre ++ e :: rest) env s = some (.ok (v, s₂)) := by
  intro pre
  induction pre with
  | nil =>
      intro vs acc e v rest env s s₁ s₂ h1 h2 h3 h4
      have h5 := Except.ok.inj (Option.some.inj h1)
      obtain ⟨h6, h7⟩ := Prod.mk.injEq .. ▸ h5
      subst h7
      show resBind (ev e env s) _ = _
      rw [h3]
      show (if truthy v then some (.ok (v, s₂))
          else or_form_loop ev v rest env s₂) = some (.ok (v, s₂))
      rw [if_pos h4]
  | cons x xs ih =>
      intro vs acc e v rest env s s₁ s₂ h1 h2 h3 h4
      obtain ⟨w, sx, ws, hx, hrest, rfl⟩ := evalList_cons_ok h1
      have hw : truthy w = false := h2 w (List.mem_cons_self _ _)
      show resBind (ev x env s) _ = _
      rw [hx]
      show (if truthy w then some (.ok (w, sx))
          else or_form_loop ev w (xs ++ e :: rest) env sx) = some (.ok (v, s₂))
      rw [if_neg (by rw [hw]; exact Bool.false_ne_true)]
      exact ih ws w e v rest env sx s₁ s₂ hrest
        (fun u hu => h2 u (List.mem_cons_of_mem _ hu)) h3 h4

theorem or_loop_all_falsy {ev : EvalFn} :
    ∀ (es vs : List Exp) (acc : Exp) (env : Nat) (s s₁ : Store) (hvs : vs ≠ []),
      evalList ev es env s = some (.ok (vs, s₁)) →
      (∀ w ∈ vs, truthy w = false) →
      or_form_loop ev acc es env s = some (.ok (vs.getLast hvs, s₁)) := by
  intro es
  induction es with
  | nil =>
      intro vs acc env s s₁ hvs h1 h2
      have h5 := Except.ok.inj (Option.some.inj h1)
      obtain ⟨h6, h7⟩ := Prod.mk.injEq .. ▸ h5
      exact absurd h6.symm hvs
  | cons x xs ih =>
      intro vs acc env s s₁ hvs h1 h2
      obtain ⟨w, sx, ws, hx, hrest, rfl⟩ := evalList_cons_ok h1
      have hw : truthy w = false := h2 w (List.mem_cons_self _ _)
      show resBind (ev x env s) _ = _
      rw [hx]
      show (if truthy w then some (.ok (w, sx))
          else or_form_loop ev w xs env sx) = some (.ok ((w :: ws).getLast hvs, s₁))
      rw [if_neg (by rw [hw]; exact Bool.false_ne_true)]
      cases ws with
      | nil =>
          cases xs with
          | nil =>
              have h5 := Except.ok.inj (Option.some.inj hrest)
              obtain ⟨h6, h7⟩ := Prod.mk.injEq .. ▸ h5
              subst h7
              rfl
          | cons y ys =>
              obtain ⟨v', s', ws', _, _, hcontra⟩ := evalList_cons_ok hrest
              exact absurd hcontra (by simp)
      | cons u us =>
          have hne : (u :: us) ≠ [] := by simp
          rw [List.getLast_cons hne]
          exact ih (u :: us) w env sx s₁ hne hrest
            (fun q hq => h2 q (List.mem_cons_of_mem _ hq))

/-- C7: `or` evaluates operands left to right and returns the first truthy
value immediately — the operands after it (`rest`) are arbitrary and the
result, value and store alike, does not depend on them, so their side
effects never occur; if every operand is falsy the value of the last
operand evaluated is returned; with zero operands the boolean false value
is returned. -/
theorem c7_or_form_left_to_right_short_circuit :
    (∀ (n : Nat) (tco : Bool) (env : Nat) (s : Store),
      evaluate (n + 1) tco (.list [.sym "or"]) env s = some (.ok (.bool false, s)))
    ∧ (∀ (n : Nat) (tco : Bool) (pre vs : List Exp) (e v : Exp)
        (rest : List Exp) (env : Nat) (s s₁ s₂ : Store),
        evalList (evaluate n tco) pre env s = some (.ok (vs, s₁)) →
        (∀ w ∈ vs, truthy w = false) →
        evaluate n tco e env s₁ = some (.ok (v, s₂)) →
        truthy v = true →
        evaluate (n + 1) tco (.list (.sym "or" :: (pre ++ e :: rest))) env s
          = some (.ok (v, s₂)))
    ∧ (∀ (n : Nat) (tco : Bool) (es vs : List Exp) (env : Nat) (s s₁ : Store)
        (hvs : vs ≠ []),
        evalList (evaluate n tco) es env s = some (.ok (vs, s₁)) →
        (∀ w ∈ vs, truthy w = false) →
        evaluate (n + 1) tco (.list (.sym "or" :: es)) env s
          = some (.ok (vs.getLast hvs, s₁))) := by
  refine ⟨fun n tco env s => rfl, ?_, ?_⟩
  · intro n tco pre vs e v rest env s s₁ s₂ h1 h2 h3 h4
    show or_form_loop (evaluate n tco) (.bool false) (pre ++ e :: rest) env s = _
    exact or_loop_first_truthy pre vs (.bool false) e v rest env s s₁ s₂ h1 h2 h3 h4
  · intro n tco es vs env s s₁ hvs h1 h2
    show or_form_loop (evaluate n tco) (.bool false) es env s = _
    exact or_loop_all_falsy es vs (.bool false) env s s₁ hvs h1 h2

/-- Concrete instances of the C7 theorem: `(or #f 0 5)` evaluates to `5`
(both `#f` and `0` are falsy), and `(or)` evaluates to the boolean false
value. -/
theorem c7_or_form_left_to_right_short_circuit_witness :
    evaluate 2 true (.list [.sym "or", .sym "#f", .int 0, .int 5]) 0 demoStore
      = some (.ok (.int 5, demoStore))
    ∧ evaluate 1 true (.list [.sym "or"]) 0 demoStore
      = some (.ok (.bool false, demoStore)) :=
  ⟨c7_or_form_left_to_right_short_circuit.2.1 1 true [.sym "#f", .int 0]
      [.bool false, .int 0] (.int 5) (.int 5) [] 0 demoStore demoStore demoStore
      rfl (by intro w hw; fin_cases hw <;> rfl) rfl rfl,
   c7_or_form_left_to_right_short_circuit.1 0 true 0 demoStore⟩

/-- C9: reserved keywords are reserved only in operator position.
`(define K V)` with a keyword `K` matches the ordinary `define` pattern
(`Symbol(var)` is any string), binds `K` in the innermost frame, and a
bare-symbol evaluation of `K` then returns the bound value (innermost
frame first).  A *list* headed by `K` still dispatches on the special
form — the `if` arm below holds for every store, hence whatever `K` is
bound to — and a malformed `K`-headed list raises `InvalidSyntax`
(the application case is guarded by `op not in KEYWORDS`), never applying
the user binding; the closed conjunct runs
`(begin (define if 3) (if 0 1 2))` to `2`. -/
theorem c9_keywords_reserved_only_in_operator_position :
    (∀ (n : Nat) (tco : Bool) (kw : String) (vexp v : Exp) (env : Nat) (s s₁ : Store),
      kw ∈ KEYWORDS →
      evaluate n tco vexp env s = some (.ok (v, s₁)) →
      evaluate (n + 1) tco (.list [.sym "define", .sym kw, vexp]) env s
        = some (.ok (.none, envSetItem s₁ env (.sym kw) v)))
    ∧ (∀ (kw : String) (v : Exp) (env : Nat) (s : Store) (f : Frame) (rest : EnvObj)
        (n : Nat) (tco : Bool),
        kw ∈ KEYWORDS →
        s.get? env = some (.frame f :: rest) →
        evaluate (n + 1) tco (.sym kw) env (envSetItem s env (.sym kw) v)
          = some (.ok (v, envSetItem s env (.sym kw) v)))
    ∧ (∀ (n : Nat) (tco : Bool) (t c a : Exp) (env : Nat) (s : Store),
        evaluate (n + 1) tco (.list [.sym "if", t, c, a]) env s
          = resBind (evaluate n tco t env s) fun v s₁ =>
              if truthy v then evaluate n tco c env s₁ else evaluate n tco a env s₁)
    ∧ (∀ (n : Nat) (tco : Bool) (t : Exp) (env : Nat) (s : Store),
        evaluate (n + 1) tco (.list [.sym "if", t]) env s
          = some (.error (.invalidSyntax (s_expr (.list [.sym "if", t])))))
    ∧ (evaluate 20 true (.list [.sym "begin",
        .list [.sym "define", .sym "if", .int 3],
        .list [.sym "if", .int 0, .int 1, .int 2]]) 0 demoStore).map
          (fun r => r.map Prod.fst) = some (.ok (.int 2)) := by
  refine ⟨?_, ?_, fun n tco t c a env s => rfl, fun n tco t env s => rfl, rfl⟩
  · intro n tco kw vexp v env s s₁ _hkw hop
    show resBind (evaluate n tco vexp env s) _ = _
    rw [hop]
    rfl
  · intro kw v env s f rest n tco _hkw hlook
    have henv : env < s.length := by
      rcases List.get?_eq_some.mp hlook with ⟨h, _⟩
      exact h
    have hset : envSetItem s env (.sym kw) v
        = s.set env (.frame (frameSet f (.sym kw) v) :: rest) := by
      show (match s.get? env with
            | Option.none => s
            | some [] => s
            | some (.frame f' :: rest') =>
                s.set env (.frame (frameSet f' (.sym kw) v) :: rest')
            | some (.ref j :: _) => envSetGo s.length s j (.sym kw) v)
          = s.set env (.frame (frameSet f (.sym kw) v) :: rest)
      rw [hlook]
    have hget : (envSetItem s env (.sym kw) v).get? env
        = some (.frame (frameSet f (.sym kw) v) :: rest) := by
      rw [hset, List.get?_eq_getElem?, List.getElem?_set_eq_of_lt _ (by simpa using henv)]
    have hlk : envLookup (envSetItem s env (.sym kw) v) env (.sym kw) = some v := by
      unfold envLookup
      rw [hget]
      show envLookupGo (envFuel (envSetItem s env (.sym kw) v)) _ _ _ = some v
      obtain ⟨m, hm⟩ : ∃ m, envFuel (envSetItem s env (.sym kw) v) = m + 1 := ⟨_, rfl⟩
      rw [hm]
      show (match frameGet (frameSet f (.sym kw) v) (.sym kw) with
            | some w => some w
            | Option.none =>
                envLookupGo m (envSetItem s env (.sym kw) v) rest (.sym kw))
          = some v
      rw [frameGet_frameSet_self]
    show (match envLookup (envSetItem s env (Exp.sym kw) v) env (Exp.sym kw) with
          | some val => some (Except.ok (val, envSetItem s env (Exp.sym kw) v))
          | Option.none =>
              some (Except.error (Err.undefinedSymbol kw))
          : Option (Except Err (Exp × Store)))
        = some (Except.ok (v, envSetItem s env (Exp.sym kw) v))
    rw [hlk]

/-- Concrete instance of the C9 theorem: `(define if 3)` binds the keyword
`if` in the innermost frame and the bare symbol `if` then evaluates to 3. -/
theorem c9_keywords_reserved_only_in_operator_position_witness :
    evaluate 2 true (.list [.sym "define", .sym "if", .int 3]) 0 [[MapEnt.frame []]]
      = some (.ok (.none, envSetItem [[MapEnt.frame []]] 0 (.sym "if") (.int 3)))
    ∧ evaluate 1 true (.sym "if") 0 (envSetItem [[MapEnt.frame []]] 0 (.sym "if") (.int 3))
      = some (.ok (.int 3, envSetItem [[MapEnt.frame []]] 0 (.sym "if") (.int 3))) :=
  ⟨c9_keywords_reserved_only_in_operator_position.1 1 true "if" (.int 3) (.int 3)
      0 [[MapEnt.frame []]] [[MapEnt.frame []]] (by decide) rfl,
   c9_keywords_reserved_only_in_operator_position.2.1 "if" (.int 3) 0
      [[MapEnt.frame []]] [] [] 0 true (by decide) rfl⟩

/-! ## Claim C5: the tail-rewrite path versus direct procedure invocation -/

/-- Unfolding of one trampoline pass at an application `(op arg*)` whose
operator is not a keyword (`evaluator.py:219-232`): evaluate the operator,
then the arguments left to right; with TCO enabled and a Procedure callee,
rewrite to `(begin body*)` in the fresh call environment, otherwise invoke
the callable directly under the TypeError-wrapping handler. -/
theorem evaluate_app_unfold (n : Nat) (tco : Bool) {op : Exp} (args : List Exp)
    (env : Nat) (s : Store) (hkw : isKeywordExp op = false) :
    evaluate (n + 1) tco (.list (op :: args)) env s
      = resBind (evaluate n tco op env s) fun procv s₁ =>
          resBind (evalList (evaluate n tco) args env s₁) fun values s₂ =>
            match tco, procv with
            | true, .proc parms body defEnv =>
                (match application_env s₂ parms values defEnv with
                 | .ok (s₃, callEnv) =>
                     evaluate n tco (.list (.sym "begin" :: body)) callEnv s₃
                 | .error e => some (.error e))
            | _, _ =>
                wrapTypeError (.list (op :: args))
                  (applyCallable (evaluate n tco) procv values s₂) := by
  show evalStep (evaluate n tco) tco (.list (op :: args)) env s = _
  rw [evalStep, classify_app args hkw]

/-- Fuel monotonicity packaged as an `EvalLe` between two evaluator
instances. -/
theorem evalLe_of_le {n m : Nat} (h : n ≤ m) (tco : Bool) :
    EvalLe (evaluate n tco) (evaluate m tco) :=
  fun e env s r hr => evaluate_mono h tco e env s r hr

/-- Argument-list evaluation is deterministic across fuels: two completed
runs of `evalList` at the same inputs agree. -/
theorem evalList_agree {n m : Nat} {tco : Bool} {args : List Exp} {env : Nat}
    {s : Store} {r r' : Except Err (List Exp × Store)}
    (h1 : evalList (evaluate n tco) args env s = some r)
    (h2 : evalList (evaluate m tco) args env s = some r') : r = r' := by
  rcases Nat.le_total n m with h | h
  · have h3 := evalList_mono (evalLe_of_le h tco) args env s r h1
    rw [h3] at h2
    exact Option.some.inj h2
  · have h3 := evalList_mono (evalLe_of_le h tco) args env s r' h2
    rw [h3] at h1
    exact (Option.some.inj h1).symm

/-- Equation of `applyCallable` at a Procedure callee: build the call
environment from the parameters and arguments, then evaluate the body
expressions in order in it, returning the last value
(`Procedure.__call__`, `evaluator.py:53-57`). -/
theorem applyCallable_proc (ev : EvalFn) (parms body : List Exp) (defEnv : Nat)
    (args : List Exp) (s : Store) :
    applyCallable ev (.proc parms body defEnv) args s
      = match application_env s parms args defEnv with
        | .error e => some (.error e)
        | .ok (s', callEnv) => evalSeq ev body callEnv s' := rfl

/-- Claim C5 (main part, proved): for every application `(Op Arg*)` whose
operator is not a keyword and evaluates (TCO enabled) to a user-defined
Procedure, and whose arguments evaluate to `values`, the trampoline's
tail-rewrite path — continue the loop at `(begin Body*)` in the fresh call
environment (`evaluator.py:222-224`) — computes exactly the same results
as invoking the Procedure directly, i.e. as `Procedure.__call__`
(`evaluator.py:53-57`): build the call environment, evaluate each body
expression in order in it, and return the value of the last.  Termination,
values, store effects and errors all coincide, including the TypeError
when the parameter list is unhashable, since both paths build the call
environment the same way.  (`body ≠ []` holds for every Procedure the
evaluator can create: the `define` and `lambda` arms guard
`len(body) > 0`.)  The claim's final gloss — that TCO-enabled and
TCO-disabled evaluation of such an application coincide — fails on the
unhashable-parameter corner, where only the non-TCO path wraps the
TypeError; see the counterexample below. -/
theorem c5_tail_rewrite_equals_direct_invocation
    (n : Nat) (op : Exp) (args : List Exp) (env : Nat) (s s₁ s₂ : Store)
    (parms body : List Exp) (defEnv : Nat) (values : List Exp)
    (hkw : isKeywordExp op = false)
    (hop : evaluate n true op env s = some (.ok (.proc parms body defEnv, s₁)))
    (hargs : evalList (evaluate n true) args env s₁ = some (.ok (values, s₂)))
    (hbody : body ≠ []) :
    ∀ r, (∃ m, evaluate m true (.list (op :: args)) env s = some r)
      ↔ (∃ m, applyCallable (evaluate m true) (.proc parms body defEnv) values s₂ = some r) := by
  intro r
  constructor
  · rintro ⟨m, hm⟩
    cases m with
    | zero => exact absurd hm (by simp [evaluate])
    | succ k =>
        rw [evaluate_app_unfold k true args env s hkw] at hm
        rcases resBind_eq_some.mp hm with ⟨e, hx, hr⟩ | ⟨procv, s₁', hx, hf⟩
        · exact absurd (evaluate_agree hx hop) (by simp)
        · have hagree := evaluate_agree hx hop
          have h1 := Except.ok.inj hagree
          obtain ⟨h2, h3⟩ := Prod.mk.injEq .. ▸ h1
          subst h2
          subst h3
          rcases resBind_eq_some.mp hf with ⟨e, hy, hr⟩ | ⟨values', s₂', hy, hg⟩
          · exact absurd (evalList_agree hy hargs) (by simp)
          · have hagree2 := evalList_agree hy hargs
            have h4 := Except.ok.inj hagree2
            obtain ⟨h5, h6⟩ := Prod.mk.injEq .. ▸ h4
            subst h5
            subst h6
            dsimp only at hg
            generalize hae : application_env s₂' parms values' defEnv = ae at hg
            cases ae with
            | error e =>
                refine ⟨1, ?_⟩
                rw [applyCallable_proc, hae]
                exact hg
            | ok p =>
                obtain ⟨s₃, callEnv⟩ := p
                have hbeg : evaluate k true (.list (.sym "begin" :: body)) callEnv s₃
                    = some r := hg
                cases k with
                | zero => exact absurd hbeg (by simp [evaluate])
                | succ k' =>
                    rw [begin_eq_seq hbody k' true callEnv s₃] at hbeg
                    refine ⟨k', ?_⟩
                    rw [applyCallable_proc, hae]
                    exact hbeg
  · rintro ⟨m, hm⟩
    rw [applyCallable_proc] at hm
    generalize hae : application_env s₂ parms values defEnv = ae at hm
    cases ae with
    | error e =>
        refine ⟨n + 1, ?_⟩
        rw [evaluate_app_unfold n true args env s hkw, hop]
        dsimp only [resBind]
        rw [hargs]
        dsimp only [resBind]
        rw [hae]
        exact hm
    | ok p =>
        obtain ⟨s₃, callEnv⟩ := p
        have hseq : evalSeq (evaluate m true) body callEnv s₃ = some r := hm
        have hseqN : evalSeq (evaluate (max m n) true) body callEnv s₃ = some r :=
          evalSeq_mono (evalLe_of_le (Nat.le_max_left m n) true) body callEnv s₃ r hseq
        refine ⟨max m n + 2, ?_⟩
        rw [evaluate_app_unfold (max m n + 1) true args env s hkw]
        have hopN : evaluate (max m n + 1) true op env s
            = some (.ok (.proc parms body defEnv, s₁)) :=
          evaluate_mono (le_trans (Nat.le_max_right m n) (Nat.le_succ _)) true op env s _ hop
        rw [hopN]
        dsimp only [resBind]
        have hargsN : evalList (evaluate (max m n + 1) true) args env s₁
            = some (.ok (values, s₂)) :=
          evalList_mono (evalLe_of_le (le_trans (Nat.le_max_right m n) (Nat.le_succ _)) true)
            args env s₁ _ hargs
        rw [hargsN]
        dsimp only [resBind]
        rw [hae]
        show evaluate (max m n + 1) true (.list (.sym "begin" :: body)) callEnv s₃ = some r
        rw [begin_eq_seq hbody (max m n) true callEnv s₃]
        exact hseqN

/-- Claim C5 counterexample to the literal final clause (TCO-enabled and
TCO-disabled evaluation of a Procedure application coincide): on
`((lambda ((1 2)) 3) 9)` the operator evaluates to a Procedure, but the
tail-rewrite path calls `application_env` outside any handler
(`evaluator.py:224`) and the host TypeError from the unhashable parameter
escapes raw, while the non-TCO path calls it inside
`try ... except TypeError` (`evaluator.py:226-232`) and wraps it into
EvaluatorException carrying the printed form; the two runs disagree. -/
theorem c5_counterexample_unhashable_parms_tco_divergence :
    evaluate 3 true c5prog 0 [] = some (.error (.typeError "unhashable type: list"))
    ∧ evaluate 3 false c5prog 0 []
        = some (.error (.evaluatorException (s_expr c5prog) c5prog))
    ∧ evaluate 3 true c5prog 0 [] ≠ evaluate 3 false c5prog 0 [] := by
  refine ⟨rfl, rfl, ?_⟩
  intro h
  rw [show evaluate 3 true c5prog 0 []
        = some (.error (.typeError "unhashable type: list")) from rfl,
      show evaluate 3 false c5prog 0 []
        = some (.error (.evaluatorException (s_expr c5prog) c5prog)) from rfl] at h
  simp at h

/-- Claim C5 witness: the applicability of the main theorem at the concrete
application `((lambda (x) x) 7)` in the empty store, whose operator
evaluates to the identity Procedure and whose tail-rewrite and direct
invocation both return `7` with the freshly allocated call environment. -/
theorem c5_tail_rewrite_equals_direct_invocation_witness :
    (∃ m, evaluate m true
        (.list [.list [.sym "lambda", .list [.sym "x"], .sym "x"], .int 7]) 0 []
        = some (.ok (.int 7, [[MapEnt.frame [(.sym "x", .int 7)], MapEnt.ref 0]])))
    ↔ (∃ m, applyCallable (evaluate m true)
        (.proc [.sym "x"] [.sym "x"] 0) [.int 7] []
        = some (.ok (.int 7, [[MapEnt.frame [(.sym "x", .int 7)], MapEnt.ref 0]]))) :=
  c5_tail_rewrite_equals_direct_invocation
    2 (.list [.sym "lambda", .list [.sym "x"], .sym "x"]) [.int 7] 0 [] [] []
    [.sym "x"] [.sym "x"] 0 [.int 7] rfl rfl rfl (by simp)
    (.ok (.int 7, [[MapEnt.frame [(.sym "x", .int 7)], MapEnt.ref 0]]))
